import Mathlib

/-!
Verification of `mkdocs-title-casing-plugin` against its specification.

The definitions below are a shallow embedding of the Python sources
`mkdocs_title_casing_plugin/string_helpers.py` and
`mkdocs_title_casing_plugin/plugin.py`.  Strings are modelled as Lean
`String`/`List Char`; Python regular-expression matching is modelled by
hand-compiled deterministic functions that follow the backtracking
semantics of the concrete patterns used by the source; exceptions are
modelled with `Option`/`Except`.
-/

namespace TitleCasing

/-! ## Generic string helpers -/

/-- Python substring containment, `needle in hay` on `str`. -/
def isSubstr (needle hay : List Char) : Bool :=
  hay.tails.any (fun t => needle.isPrefixOf t)

/-- The whitespace set stripped by Python `str.strip()` (the `str.isspace`
characters). -/
def pyWs (c : Char) : Bool :=
  c == ' ' || c == '\t' || c == '\n' || c == '\r' || c == '\x0b' || c == '\x0c' ||
  c == '\x1c' || c == '\x1d' || c == '\x1e' || c == '\x1f' || c == '\x85' ||
  c == '\xa0' || c == '\u1680' || (0x2000 ≤ c.toNat && c.toNat ≤ 0x200a) ||
  c == '\u2028' || c == '\u2029' || c == '\u202f' || c == '\u205f' || c == '\u3000'

/-- Python `str.strip()` on a character list. -/
def stripList (l : List Char) : List Char :=
  ((l.dropWhile pyWs).reverse.dropWhile pyWs).reverse

/-- Python `str.strip()`. -/
def pyStrip (s : String) : String :=
  String.mk (stripList s.toList)

/-- Python `str.casefold()` (ASCII-adequate model: character-wise lowering). -/
def pyCasefold (s : String) : String :=
  String.mk (s.toList.map Char.toLower)

/-- Python `str.title()` — used by the `first_letter` capitalization type:
a cased character following an uncased character is uppercased, other
cased characters are lowercased. -/
def pyTitle (s : String) : String :=
  String.mk ((s.toList.foldl
    (fun (st : Bool × List Char) c =>
      if c.isAlpha then
        (true, (if st.1 then c.toLower else c.toUpper) :: st.2)
      else
        (false, c :: st.2))
    (false, [])).2.reverse)

/-- Python `str.replace(needle, rep)`: replace all non-overlapping
occurrences, scanning left to right.  (The source only ever calls it
with non-empty needles; for an empty needle this model is the identity.) -/
def replaceAllFuel (needle rep : List Char) : Nat → List Char → List Char
  | 0, hay => hay
  | _ + 1, [] => []
  | fuel + 1, c :: rest =>
    if needle ≠ [] ∧ needle.isPrefixOf (c :: rest) then
      rep ++ replaceAllFuel needle rep fuel ((c :: rest).drop needle.length)
    else
      c :: replaceAllFuel needle rep fuel rest

def replaceAll (needle rep hay : List Char) : List Char :=
  replaceAllFuel needle rep hay.length hay

/-! ## `Term` (string_helpers.py)

`PUNCTUATION` is the character class
`!"“#$%&'‘()*+,\-–‒—―./:;?@[\\\]_`(backtick)(lbrace)|(rbrace)~`
of `string_helpers.py`. -/

def PUNCTUATION : List Char :=
  "!\"“#$%&\x27‘()*+,-–‒—―./:;?@[\\]_\x60\x7b|\x7d~".toList

def isPunct (c : Char) : Bool :=
  PUNCTUATION.contains c

/-- The split computed by `PUNCTUATION_CAPTURE_RE.fullmatch`:
`([P]*)(.*?)([P]*)` with a greedy punctuation prefix, a lazy middle and a
trailing punctuation run.  Python `.` does not match a newline and the
punctuation class has no newline either, so `fullmatch` fails exactly on
inputs containing `'\n'`; `Term._split_punctuation` then raises
`RuntimeError`, modelled by `none`. -/
def splitPunct (l : List Char) : Option (List Char × List Char × List Char) :=
  if l.contains '\n' then none
  else
    let p := l.takeWhile isPunct
    let r := l.dropWhile isPunct
    let t := (r.reverse.takeWhile isPunct).reverse
    let w := (r.reverse.dropWhile isPunct).reverse
    some (p, w, t)

/-- `Term`: a word together with its wrapping punctuation
(`_prefix`, `_word`, `_suffix` in the source). -/
structure Term where
  pre : String
  word : String
  suf : String
deriving DecidableEq, Repr

namespace Term

/-- `Term.lookup_word`: the word casefolded. -/
def lookupWord (t : Term) : String :=
  pyCasefold t.word

/-- `Term.has_affixes`. -/
def hasAffixes (t : Term) : Bool :=
  t.pre.length > 0 || t.suf.length > 0

/-- `Term.__eq__` exactly as written in the source:

    other._prefix == self._prefix
      and other._word == self._word
      and other._suffix == self._prefix

Note that the last conjunct compares `other`'s suffix with `self`'s
*prefix*. -/
def termEq (self other : Term) : Bool :=
  other.pre == self.pre && other.word == self.word && other.suf == self.pre

/-- `Term.__str__`. -/
def str (t : Term) : String :=
  t.pre ++ t.word ++ t.suf

/-- `Term.casefold`. -/
def casefold (t : Term) : Term :=
  ⟨t.pre, pyCasefold t.word, t.suf⟩

/-- `Term.adopt_prefix_and_suffix`. -/
def adoptPrefixAndSuffix (self other : Term) : Term :=
  ⟨other.pre, self.word, other.suf⟩

/-- `Term.has_same_word_superset_affixes` (substring containment). -/
def hasSameWordSupersetAffixes (self other : Term) : Bool :=
  isSubstr other.pre.toList self.pre.toList &&
  isSubstr other.suf.toList self.suf.toList &&
  other.word == self.word

/-- `Term.has_same_word_subset_affixes`. -/
def hasSameWordSubsetAffixes (self other : Term) : Bool :=
  isSubstr self.pre.toList other.pre.toList &&
  isSubstr self.suf.toList other.suf.toList &&
  other.word == self.word

/-- `Term.from_string`; `none` models the `RuntimeError` branch of
`_split_punctuation`. -/
def fromString? (s : String) : Option Term :=
  (splitPunct s.toList).map
    (fun pwt => ⟨String.mk pwt.1, String.mk pwt.2.1, String.mk pwt.2.2⟩)

end Term

/-! ## Exception table (string_helpers.py) -/

/-- The dict `{term.lookup_word: term for term in terms}` is modelled as an
association list in insertion order; lookups take the *last* binding for a
key, matching dict-comprehension overwrite semantics. -/
def dictContains (m : List (String × Term)) (k : String) : Bool :=
  m.any (fun kv => kv.1 == k)

def dictGet (m : List (String × Term)) (k : String) : Option Term :=
  (m.reverse.find? (fun kv => kv.1 == k)).map (fun kv => kv.2)

/-- `to_ignored_terms_mapping`: each line is stripped, parsed as a `Term`,
and indexed by its casefolded word.  `none` models a `RuntimeError`
escaping from `Term.from_string`. -/
def toIgnoredTermsMapping (lines : List String) : Option (List (String × Term)) :=
  (lines.mapM (fun line => Term.fromString? (pyStrip line))).map
    (fun terms => terms.map (fun t => (t.lookupWord, t)))

/-- `is_term_ignored`: the match-resolver decision ladder.  The outer
`Option` models the `RuntimeError` that `Term.from_string` may raise; the
inner `Option` is the `str | None` return value (`none` = no override). -/
def isTermIgnored (ignoredTerms : List (String × Term)) (term : String) :
    Option (Option String) :=
  match Term.fromString? term with
  | none => none
  | some lookupTerm =>
    if ¬ dictContains ignoredTerms lookupTerm.lookupWord then some none
    else
      match dictGet ignoredTerms lookupTerm.lookupWord with
      | none => some none
      | some canonicalTerm =>
        let representationTerm := canonicalTerm.adoptPrefixAndSuffix lookupTerm
        if Term.termEq lookupTerm canonicalTerm then
          some (some representationTerm.str)
        else if lookupTerm.hasSameWordSupersetAffixes canonicalTerm then
          some (some representationTerm.str)
        else if lookupTerm.hasSameWordSubsetAffixes canonicalTerm then
          some none
        else
          let casefoldLookupTerm := lookupTerm.casefold
          let casefoldCanonicalTerm := canonicalTerm.casefold
          if Term.termEq casefoldLookupTerm casefoldCanonicalTerm then
            some (some representationTerm.str)
          else if casefoldLookupTerm.hasSameWordSupersetAffixes casefoldCanonicalTerm then
            some none
          else if casefoldLookupTerm.hasSameWordSubsetAffixes casefoldCanonicalTerm then
            some none
          else
            some (some representationTerm.str)

/-! ## HTML heading matching

Both heading regexes share the shape

    ^([ \t]*<(?:h1|h2|h3|h4|h5|h6)[ \t]+(?:.*?=[^>]*?)>)(.*?)(MARKER.*)$

where `MARKER` is `(?:<a|<\/h)` in `string_helpers.HTML_HEADING_RE` and
just `<` in `plugin.html_heading_re`.  `fullmatch` with Python's
backtracking semantics is compiled by hand into the deterministic
functions below:

* the leading `[ \t]*` run and the `<hN` tag are forced (the character
  after a maximal space run cannot be a space);
* group 1 ends at the first `>` that follows the first `=` for which the
  remainder admits a match of groups 2–3 (`.*?` enumerates `=` positions
  left to right and cannot cross a newline; `[^>]*?` stops at the first
  `>` and cannot match `>`);
* group 2 is the shortest run (newline-free, since `.` does not match a
  newline) up to an occurrence of the marker; group 3 runs from that
  occurrence to the end of the line and is also newline-free. -/

def isHSpace (c : Char) : Bool :=
  c == ' ' || c == '\t'

def isHDigit (c : Char) : Bool :=
  c == '1' || c == '2' || c == '3' || c == '4' || c == '5' || c == '6'

/-- Marker of `string_helpers.HTML_HEADING_RE`: `(?:<a|<\/h)`. -/
def markerH (l : List Char) : Bool :=
  ['<', 'a'].isPrefixOf l || ['<', '/', 'h'].isPrefixOf l

/-- Marker of `plugin.html_heading_re`: a bare `<`. -/
def markerP (l : List Char) : Bool :=
  match l with
  | c :: _ => c == '<'
  | [] => false

/-- Split a list at its first `>` (inclusive): models `[^>]*?>`. -/
def findGt : List Char → Option (List Char × List Char)
  | [] => none
  | c :: rest =>
    if c == '>' then some ([c], rest)
    else
      match findGt rest with
      | some (g, r) => some (c :: g, r)
      | none => none

/-- Split a list at the first occurrence of the marker: models the lazy
group 2 followed by group 3. -/
def findMarker (marker : List Char → Bool) : List Char → Option (List Char × List Char)
  | [] => none
  | c :: rest =>
    if marker (c :: rest) then some ([], c :: rest)
    else
      match findMarker marker rest with
      | some (a, b) => some (c :: a, b)
      | none => none

/-- Groups 2 and 3: `(.*?)(MARKER.*)$` under `fullmatch`.  Both groups are
built from `.`, which cannot match a newline, so any newline in the
remainder makes the match fail. -/
def groups23 (marker : List Char → Bool) (l : List Char) :
    Option (List Char × List Char) :=
  if l.contains '\n' then none else findMarker marker l

/-- One attempt of `[^>]*?>` plus groups 2–3 after a chosen `=`: take the
first `>` of the remainder, then match groups 2–3 on what follows. -/
def eqAttempt (marker : List Char → Bool) (rest : List Char) :
    Option (List Char × List Char × List Char) :=
  match findGt rest with
  | some (g, r) =>
    match groups23 marker r with
    | some (h, s) => some (g, h, s)
    | none => none
  | none => none

/-- `(?:.*?=[^>]*?)>` followed by groups 2–3: enumerate `=` positions left
to right (never crossing a newline), and accept the first `=` whose
attempt succeeds. -/
def scanEq (marker : List Char → Bool) : List Char →
    Option (List Char × List Char × List Char)
  | [] => none
  | c :: rest =>
    if c == '\n' then none
    else if c == '=' then
      match eqAttempt marker rest with
      | some (g, h, s) => some (c :: g, h, s)
      | none =>
        match scanEq marker rest with
        | some (a, h, s) => some (c :: a, h, s)
        | none => none
    else
      match scanEq marker rest with
      | some (a, h, s) => some (c :: a, h, s)
      | none => none

/-- `fullmatch` of the heading pattern: returns the three capture groups. -/
def matchHeadingG (marker : List Char → Bool) (l : List Char) :
    Option (List Char × List Char × List Char) :=
  match l.dropWhile isHSpace with
  | '<' :: 'h' :: d :: r2 =>
    if isHDigit d && !(r2.takeWhile isHSpace).isEmpty then
      match scanEq marker (r2.dropWhile isHSpace) with
      | some (a, h, s) =>
        some (l.takeWhile isHSpace ++
          '<' :: 'h' :: d :: (r2.takeWhile isHSpace ++ a), h, s)
      | none => none
    else none
  | _ => none

/-- `HTML_UNSAFE_DECODINGS` in insertion order. -/
def HTML_UNSAFE_DECODINGS : List (String × String) :=
  [("&amp;", "&"), ("&quot;", "\""), ("&#039;", "\x27"), ("&lt;", "<"),
   ("&gt;", ">"), ("&#96;", "\x60"), ("<code>", "\x60"), ("</code>", "\x60")]

/-- The decoding loop of `parse_html_heading`: sequential whole-string
replacements in dict insertion order. -/
def decodeHeading (h : List Char) : List Char :=
  HTML_UNSAFE_DECODINGS.foldl
    (fun acc ed => replaceAll ed.1.toList ed.2.toList acc) h

/-- `parse_html_heading` (string_helpers.py). -/
def parseHtmlHeading (line : String) : Option (String × String × String) :=
  match matchHeadingG markerH line.toList with
  | some (p, h, s) => some (String.mk p, String.mk (decodeHeading h), String.mk s)
  | none => none

/-! ## plugin.py: line splitting -/

/-- The line boundaries recognized by Python `str.splitlines`. -/
def isLineBreak (c : Char) : Bool :=
  c == '\n' || c == '\r' || c == '\x0b' || c == '\x0c' || c == '\x1c' ||
  c == '\x1d' || c == '\x1e' || c == '\x85' || c == '\u2028' || c == '\u2029'

/-- Python `str.splitlines` (keepends=False): `\r\n` counts as a single
boundary (the flag records that the previous character was a `\r`, so a
following `\n` is absorbed); a final segment is kept only when
non-empty. -/
def splitlinesAux : List Char → Bool → List Char → List (List Char)
  | [], _, acc => if acc.isEmpty then [] else [acc.reverse]
  | c :: rest, lastCR, acc =>
    if c == '\n' && lastCR then splitlinesAux rest false acc
    else if isLineBreak c then acc.reverse :: splitlinesAux rest (c == '\r') []
    else splitlinesAux rest false (c :: acc)

def splitlines (l : List Char) : List (List Char) :=
  splitlinesAux l false []

/-- `"\n".join(lines)`. -/
def joinNL : List (List Char) → List Char
  | [] => []
  | [y] => y
  | y :: ys => y ++ '\n' :: joinNL ys

/-! ## plugin.py: strategies -/

/-- `Strategy._to_titlecase`: strip, dispatch on `capitalization_type`
(`first_letter` → Python `str.title`, `title` → the external `titlecase`
collaborator `tc`, anything else → `ConfigurationError`), strip again. -/
def toTitlecaseFn (capType : String) (tc : String → String) (v : String) :
    Except String String :=
  let v := pyStrip v
  if capType == "first_letter" then .ok (pyStrip (pyTitle v))
  else if capType == "title" then .ok (pyStrip (tc v))
  else .error ("Unexpected capitalization_type: " ++ capType ++ ".")

/-- The warning text of `Strategy._handle_heading` after `%`-formatting:
`[file_path ": "]["(" line_number "): "]Heading "..." should be "...".`;
the file-path segment is dropped when the path is absent *or empty*
(Python truthiness). -/
def formatWarning (heading fixed : String) (lineNumber : Option Nat)
    (filePath : Option String) : String :=
  let base := "Heading \"" ++ heading ++ "\" should be \"" ++ fixed ++ "\"."
  let base :=
    match lineNumber with
    | some n => "(" ++ Nat.repr n ++ "): " ++ base
    | none => base
  match filePath with
  | some p => if p == "" then base else p ++ ": " ++ base
  | none => base

/-- `Strategy._handle_heading`: `none` heading is skipped; otherwise the
title-cased form is computed and a warning is produced when it differs
from the original. -/
def handleHeading (capType : String) (tc : String → String)
    (heading : Option String) (lineNumber : Option Nat)
    (filePath : Option String) : Except String (Option String) :=
  match heading with
  | none => .ok none
  | some hd =>
    match toTitlecaseFn capType tc hd with
    | .error e => .error e
    | .ok fixed =>
      .ok (if hd == fixed then none else some (formatWarning hd fixed lineNumber filePath))

/-- `FixOnPageContentStrategy`: per line, a heading line (per
`plugin.html_heading_re`) is replaced by `prefix + fixed + suffix`, any
other line is appended unchanged. -/
def fixPageLines (capType : String) (tc : String → String) :
    List (List Char) → Except String (List (List Char))
  | [] => .ok []
  | l :: rest =>
    match matchHeadingG markerP l with
    | some (p, h, s) =>
      match toTitlecaseFn capType tc (String.mk h) with
      | .error e => .error e
      | .ok f =>
        (fixPageLines capType tc rest).map (fun ls => (p ++ f.toList ++ s) :: ls)
    | none => (fixPageLines capType tc rest).map (fun ls => l :: ls)

/-- `FixOnPageContentStrategy.on_page_content` + `_build_output`:
split into lines, process, rejoin with `"\n"`. -/
def fixPageContent (capType : String) (tc : String → String) (html : String) :
    Except String String :=
  (fixPageLines capType tc (splitlines html.toList)).map
    (fun ls => String.mk (joinNL ls))

/-- `WarningOnPageContentStrategy`: heading lines are reported through
`_handle_heading` (file path, no line number); other lines are ignored;
the output is the warning list. -/
def warnPageLines (capType : String) (tc : String → String) (filePath : String) :
    List (List Char) → Except String (List String)
  | [] => .ok []
  | l :: rest =>
    match matchHeadingG markerP l with
    | some (_, h, _) =>
      match handleHeading capType tc (some (String.mk h)) none (some filePath) with
      | .error e => .error e
      | .ok w =>
        (warnPageLines capType tc filePath rest).map (fun ws => w.toList ++ ws)
    | none => warnPageLines capType tc filePath rest

def warnPageContent (capType : String) (tc : String → String)
    (html filePath : String) : Except String (List String) :=
  warnPageLines capType tc filePath (splitlines html.toList)

/-- `TitleCasingPlugin.on_page_content`: mode dispatch; an unrecognized
mode raises `ConfigurationError` before any line is processed.  The
result pairs the rewritten page (fix mode) with the warning list (warn
mode). -/
def onPageContent (mode capType : String) (tc : String → String)
    (html filePath : String) : Except String (Option String × List String) :=
  if mode == "fix" then
    (fixPageContent capType tc html).map (fun s => (some s, []))
  else if mode == "warn" then
    (warnPageContent capType tc html filePath).map (fun ws => (none, ws))
  else .error ("Unexpected mode: " ++ mode)

/-! ## plugin.py: navigation traversal

The mkdocs navigation is a forest of sections (title and children),
pages (optional title) and links (title). -/

inductive NavItem where
  | sec (title : String) (children : List NavItem)
  | page (title : Option String)
  | link (title : String)
deriving Repr

/-- State of `FixOnNavStrategy`: the `_pages` and `_items` accumulators. -/
structure FixNavState where
  pages : List NavItem
  items : List NavItem
deriving Repr

mutual
/-- `OnNavStrategy._traverse_navigation` for `FixOnNavStrategy`: returns
the rewritten item and the incremented line counter, threading the
accumulator state (`_handle_page` appends to `_pages`, `_handle_link`
appends to `_items`; a section is rebuilt from its rewritten children
after they are traversed). -/
def fixNavItem (capType : String) (tc : String → String) :
    NavItem → Nat → FixNavState → Except String (NavItem × Nat × FixNavState)
  | .sec t children, ln, st =>
    match fixNavList capType tc children ln st with
    | .error e => .error e
    | .ok (outCh, ln2, st2) =>
      match toTitlecaseFn capType tc t with
      | .error e => .error e
      | .ok f => .ok (.sec f outCh, ln2 + 1, st2)
  | .page t?, ln, st =>
    match t? with
    | some t =>
      match toTitlecaseFn capType tc t with
      | .error e => .error e
      | .ok f =>
        .ok (.page (some f), ln + 1, ⟨st.pages ++ [.page (some f)], st.items⟩)
    | none => .ok (.page none, ln + 1, ⟨st.pages ++ [.page none], st.items⟩)
  | .link t, ln, st =>
    match toTitlecaseFn capType tc t with
    | .error e => .error e
    | .ok f => .ok (.link f, ln + 1, ⟨st.pages, st.items ++ [.link f]⟩)

def fixNavList (capType : String) (tc : String → String) :
    List NavItem → Nat → FixNavState → Except String (List NavItem × Nat × FixNavState)
  | [], ln, st => .ok ([], ln, st)
  | c :: rest, ln, st =>
    match fixNavItem capType tc c ln st with
    | .error e => .error e
    | .ok (out, ln2, st2) =>
      match fixNavList capType tc rest ln2 st2 with
      | .error e => .error e
      | .ok (outs, ln3, st3) => .ok (out :: outs, ln3, st3)
end

/-- The top-level loop of `OnNavStrategy.on_nav` for fix mode:
`_handle_top_level_item` appends each rewritten top-level item to
`_items`; `_build_output` returns `Navigation(_items, _pages)`. -/
def fixNavTop (capType : String) (tc : String → String) :
    List NavItem → Nat → FixNavState → Except String (Nat × FixNavState)
  | [], ln, st => .ok (ln, st)
  | c :: rest, ln, st =>
    match fixNavItem capType tc c ln st with
    | .error e => .error e
    | .ok (out, ln2, st2) =>
      fixNavTop capType tc rest ln2 ⟨st2.pages, st2.items ++ [out]⟩

mutual
/-- `OnNavStrategy._traverse_navigation` for `WarningOnNavStrategy`:
collect a warning per titled item, with the config-file path and the
running line number; sections are reported after their children. -/
def warnNavItem (capType : String) (tc : String → String) (path : String) :
    NavItem → Nat → Except String (List String × Nat)
  | .sec t children, ln =>
    match warnNavList capType tc path children ln with
    | .error e => .error e
    | .ok (ws, ln2) =>
      match handleHeading capType tc (some t) (some ln2) (some path) with
      | .error e => .error e
      | .ok w => .ok (ws ++ w.toList, ln2 + 1)
  | .page t?, ln =>
    match handleHeading capType tc t? (some ln) (some path) with
    | .error e => .error e
    | .ok w => .ok (w.toList, ln + 1)
  | .link t, ln =>
    match handleHeading capType tc (some t) (some ln) (some path) with
    | .error e => .error e
    | .ok w => .ok (w.toList, ln + 1)

def warnNavList (capType : String) (tc : String → String) (path : String) :
    List NavItem → Nat → Except String (List String × Nat)
  | [], ln => .ok ([], ln)
  | c :: rest, ln =>
    match warnNavItem capType tc path c ln with
    | .error e => .error e
    | .ok (ws, ln2) =>
      match warnNavList capType tc path rest ln2 with
      | .error e => .error e
      | .ok (ws2, ln3) => .ok (ws ++ ws2, ln3)
end

/-- `TitleCasingPlugin.on_nav`: when the config has no `nav` the hook
returns immediately; otherwise the mode selects the strategy and an
unrecognized mode raises `ConfigurationError` before any item is
processed.  The result pairs the rewritten navigation (fix mode) with
the warning list (warn mode). -/
def onNav (mode capType : String) (tc : String → String) (cfgNav : Option Unit)
    (nav : List NavItem) (startLine : Nat) (cfgPath : String) :
    Except String (Option FixNavState × List String) :=
  match cfgNav with
  | none => .ok (none, [])
  | some _ =>
    if mode == "fix" then
      (fixNavTop capType tc nav startLine ⟨[], []⟩).map
        (fun r => (some r.2, []))
    else if mode == "warn" then
      (warnNavList capType tc cfgPath nav startLine).map
        (fun r => (none, r.1))
    else .error ("Unexpected mode: " ++ mode)

/-! ## Derived pure forms used by the theorems -/

/-- A line that contains no line-break character (as all lines produced
by `splitlines` are). -/
def breakFree (l : List Char) : Prop :=
  ∀ c ∈ l, isLineBreak c = false

/-- The composed per-heading transform of fix mode with
`capitalization_type = "title"`: `strip(titlecase(strip(h)))`. -/
def titleT (tc : String → String) (h : String) : String :=
  pyStrip (tc (pyStrip h))

/-- The per-line action of `FixOnPageContentStrategy` with
`capitalization_type = "title"`, as a pure function. -/
def processLineT (tc : String → String) (l : List Char) : List Char :=
  match matchHeadingG markerP l with
  | some (p, h, s) => p ++ (titleT tc (String.mk h)).toList ++ s
  | none => l

/-! ## Structural lemmas about the heading matcher -/

lemma findGt_split {l g r : List Char} (h : findGt l = some (g, r)) :
    l = g ++ r := by
  induction l generalizing g r with
  | nil => simp [findGt] at h
  | cons c rest ih =>
    rw [findGt] at h
    split at h
    · simp only [Option.some.injEq, Prod.mk.injEq] at h
      obtain ⟨h1, h2⟩ := h
      subst h1 h2
      simp
    · split at h
      · rename_i g2 r2 heq
        simp only [Option.some.injEq, Prod.mk.injEq] at h
        obtain ⟨h1, h2⟩ := h
        subst h1 h2
        simpa using ih heq
      · simp at h

lemma findMarker_split {marker : List Char → Bool} {l a b : List Char}
    (h : findMarker marker l = some (a, b)) : l = a ++ b := by
  induction l generalizing a b with
  | nil => simp [findMarker] at h
  | cons c rest ih =>
    rw [findMarker] at h
    split at h
    · simp only [Option.some.injEq, Prod.mk.injEq] at h
      obtain ⟨h1, h2⟩ := h
      subst h1 h2
      simp
    · split at h
      · rename_i a2 b2 heq
        simp only [Option.some.injEq, Prod.mk.injEq] at h
        obtain ⟨h1, h2⟩ := h
        subst h1 h2
        simpa using ih heq
      · simp at h

lemma groups23_split {marker : List Char → Bool} {l a b : List Char}
    (h : groups23 marker l = some (a, b)) : l = a ++ b := by
  rw [groups23] at h
  split at h
  · simp at h
  · exact findMarker_split h

lemma eqAttempt_split {marker : List Char → Bool} {l g hd s : List Char}
    (h : eqAttempt marker l = some (g, hd, s)) : l = g ++ hd ++ s := by
  rw [eqAttempt] at h
  split at h
  · rename_i g2 r2 hfg
    split at h
    · rename_i hh ss hg23
      simp only [Option.some.injEq, Prod.mk.injEq] at h
      obtain ⟨h1, h2, h3⟩ := h
      subst h1 h2 h3
      rw [findGt_split hfg, groups23_split hg23, List.append_assoc]
    · simp at h
  · simp at h

lemma scanEq_split {marker : List Char → Bool} {l a hd s : List Char}
    (h : scanEq marker l = some (a, hd, s)) : l = a ++ hd ++ s := by
  induction l generalizing a hd s with
  | nil => simp [scanEq] at h
  | cons c rest ih =>
    rw [scanEq] at h
    split at h
    · simp at h
    · split at h
      · split at h
        · rename_i g h2 s2 hat
          simp only [Option.some.injEq, Prod.mk.injEq] at h
          obtain ⟨h1, h2', h3⟩ := h
          subst h1 h2' h3
          have hr : rest = g ++ (h2 ++ s2) := by
            simpa using eqAttempt_split hat
          simp [hr]
        · split at h
          · rename_i a2 h2 s2 hse
            simp only [Option.some.injEq, Prod.mk.injEq] at h
            obtain ⟨h1, h2', h3⟩ := h
            subst h2' h3
            simpa [← h1] using ih hse
          · simp at h
      · split at h
        · rename_i a2 h2 s2 hse
          simp only [Option.some.injEq, Prod.mk.injEq] at h
          obtain ⟨h1, h2', h3⟩ := h
          subst h2' h3
          simpa [← h1] using ih hse
        · simp at h

lemma matchHeadingG_split {marker : List Char → Bool} {l p hd s : List Char}
    (h : matchHeadingG marker l = some (p, hd, s)) : l = p ++ hd ++ s := by
  rw [matchHeadingG] at h
  split at h
  · rename_i d r2 hdw
    split at h
    · split at h
      · rename_i a h2 s2 hse
        simp only [Option.some.injEq, Prod.mk.injEq] at h
        obtain ⟨h1, h2', h3⟩ := h
        subst h1 h2' h3
        have hl : l = l.takeWhile isHSpace ++ ('<' :: 'h' :: d :: r2) := by
          rw [← hdw, List.takeWhile_append_dropWhile]
        have hr2 : r2 = r2.takeWhile isHSpace ++ (a ++ h2 ++ s2) := by
          rw [← scanEq_split hse, List.takeWhile_append_dropWhile]
        conv_lhs => rw [hl, hr2]
        simp
      · simp at h
    · simp at h
  · simp at h

/-! ## Reconstruction lemmas for the heading matcher -/

lemma findGt_none {l : List Char} (h : findGt l = none) : '>' ∉ l := by
  induction l with
  | nil => simp
  | cons c rest ih =>
    rw [findGt] at h
    split at h
    · simp at h
    · split at h
      · simp at h
      · rename_i hc _ hnone
        simp only [List.mem_cons, not_or]
        refine ⟨fun hcontra => hc ?_, ih hnone⟩
        rw [← hcontra]
        simp

lemma findGt_append {x y g r : List Char} (h : findGt x = some (g, r)) :
    findGt (x ++ y) = some (g, r ++ y) := by
  induction x generalizing g r with
  | nil => simp [findGt] at h
  | cons c rest ih =>
    rw [findGt] at h
    rw [List.cons_append, findGt]
    split at h
    · rename_i hc
      simp only [Option.some.injEq, Prod.mk.injEq] at h
      obtain ⟨h1, h2⟩ := h
      subst h1 h2
      simp [hc]
    · rename_i hc
      split at h
      · rename_i g2 r2 heq
        simp only [Option.some.injEq, Prod.mk.injEq] at h
        obtain ⟨h1, h2⟩ := h
        subst h1 h2
        rw [if_neg (by simpa using hc), ih heq]
      · simp at h

lemma findGt_mem {x : List Char} (h : '>' ∈ x) :
    ∃ g r, findGt x = some (g, r) := by
  rcases hfg : findGt x with _ | ⟨g, r⟩
  · exact absurd h (findGt_none hfg)
  · exact ⟨g, r, rfl⟩

lemma findGt_struct {l g r : List Char} (h : findGt l = some (g, r)) :
    ∃ g0, g = g0 ++ ['>'] ∧ '>' ∉ g0 := by
  induction l generalizing g r with
  | nil => simp [findGt] at h
  | cons c rest ih =>
    rw [findGt] at h
    split at h
    · rename_i hc
      simp only [Option.some.injEq, Prod.mk.injEq] at h
      obtain ⟨h1, h2⟩ := h
      subst h1 h2
      exact ⟨[], by simpa using hc, by simp⟩
    · rename_i hc
      split at h
      · rename_i g2 r2 heq
        simp only [Option.some.injEq, Prod.mk.injEq] at h
        obtain ⟨h1, h2⟩ := h
        subst h1 h2
        obtain ⟨g0, hg0, hmem⟩ := ih heq
        refine ⟨c :: g0, by simp [hg0], ?_⟩
        simp only [List.mem_cons, not_or]
        refine ⟨fun hcontra => hc ?_, hmem⟩
        rw [← hcontra]
        simp
      · simp at h

lemma findGt_recon {g0 : List Char} (hmem : '>' ∉ g0) (y : List Char) :
    findGt (g0 ++ '>' :: y) = some (g0 ++ ['>'], y) := by
  induction g0 with
  | nil => simp [findGt]
  | cons c rest ih =>
    have hc : (c == '>') = false := by
      simp only [List.mem_cons, not_or] at hmem
      simpa using fun h => hmem.1 h.symm
    have hrest : '>' ∉ rest := by
      simp only [List.mem_cons, not_or] at hmem
      exact hmem.2
    rw [List.cons_append, findGt, if_neg (by simp [hc]), ih hrest]
    simp

lemma findMarker_marker {marker : List Char → Bool} {l a b : List Char}
    (h : findMarker marker l = some (a, b)) : marker b = true := by
  induction l generalizing a b with
  | nil => simp [findMarker] at h
  | cons c rest ih =>
    rw [findMarker] at h
    split at h
    · rename_i hc
      simp only [Option.some.injEq, Prod.mk.injEq] at h
      obtain ⟨h1, h2⟩ := h
      subst h2
      exact hc
    · split at h
      · rename_i a2 b2 heq
        simp only [Option.some.injEq, Prod.mk.injEq] at h
        obtain ⟨h1, h2⟩ := h
        subst h2
        exact ih heq
      · simp at h

lemma findMarker_recon {marker : List Char → Bool}
    (hm : ∀ c r, marker (c :: r) = true → c = '<')
    {h' s : List Char} (hh : ∀ c ∈ h', c ≠ '<') (hs : marker s = true)
    (hsne : s ≠ []) : findMarker marker (h' ++ s) = some (h', s) := by
  induction h' with
  | nil =>
    rcases s with _ | ⟨c, rest⟩
    · exact absurd rfl hsne
    · rw [List.nil_append, findMarker, if_pos hs]
  | cons c rest ih =>
    have hcne : c ≠ '<' := hh c (by simp)
    have hrest : ∀ d ∈ rest, d ≠ '<' := fun d hd => hh d (by simp [hd])
    have hmf : marker (c :: (rest ++ s)) = false := by
      rcases hcase : marker (c :: (rest ++ s)) with _ | _
      · rfl
      · exact absurd (hm c (rest ++ s) hcase) hcne
    rw [List.cons_append, findMarker, if_neg (by simp [hmf]), ih hrest]

lemma findMarker_ne_none {marker : List Char → Bool} {x s : List Char}
    (hs : marker s = true) (hsne : s ≠ []) :
    findMarker marker (x ++ s) ≠ none := by
  induction x with
  | nil =>
    rcases s with _ | ⟨c, rest⟩
    · exact absurd rfl hsne
    · rw [List.nil_append, findMarker, if_pos hs]
      simp
  | cons c rest ih =>
    rw [List.cons_append, findMarker]
    split
    · simp
    · rcases hcase : findMarker marker (rest ++ s) with _ | ⟨a, b⟩
      · exact absurd hcase ih
      · simp [hcase]

lemma contains_newline_iff (l : List Char) :
    l.contains '
' = true ↔ '
' ∈ l := by
  simp [List.contains]

lemma groups23_some_elim {marker : List Char → Bool} {l a b : List Char}
    (h : groups23 marker l = some (a, b)) :
    '
' ∉ l ∧ findMarker marker l = some (a, b) := by
  rw [groups23] at h
  split at h
  · simp at h
  · rename_i hc
    refine ⟨?_, h⟩
    intro hmem
    exact hc ((contains_newline_iff l).mpr hmem)

lemma groups23_none_elim {marker : List Char → Bool} {l : List Char}
    (h : groups23 marker l = none) :
    '
' ∈ l ∨ findMarker marker l = none := by
  rw [groups23] at h
  split at h
  · rename_i hc
    exact Or.inl ((contains_newline_iff l).mp hc)
  · exact Or.inr h

lemma groups23_recon {marker : List Char → Bool} {h' s : List Char}
    (hnl : '
' ∉ h' ++ s) (hfm : findMarker marker (h' ++ s) = some (h', s)) :
    groups23 marker (h' ++ s) = some (h', s) := by
  rw [groups23, if_neg, hfm]
  intro hc
  exact hnl ((contains_newline_iff _).mp hc)

lemma groups23_none_of_newline {marker : List Char → Bool} {l : List Char}
    (hnl : '
' ∈ l) : groups23 marker l = none := by
  rw [groups23, if_pos ((contains_newline_iff l).mpr hnl)]

lemma eqAttempt_some_elim {marker : List Char → Bool} {l g hd s : List Char}
    (h : eqAttempt marker l = some (g, hd, s)) :
    findGt l = some (g, hd ++ s) ∧ groups23 marker (hd ++ s) = some (hd, s) := by
  rw [eqAttempt] at h
  split at h
  · rename_i g2 r2 hfg
    split at h
    · rename_i hh ss hg23
      simp only [Option.some.injEq, Prod.mk.injEq] at h
      obtain ⟨h1, h2, h3⟩ := h
      subst h1 h2 h3
      have hr2 := groups23_split hg23
      subst hr2
      exact ⟨hfg, hg23⟩
    · simp at h
  · simp at h

lemma eqAttempt_none_elim {marker : List Char → Bool} {l : List Char}
    (h : eqAttempt marker l = none) :
    findGt l = none ∨ ∃ g r, findGt l = some (g, r) ∧ groups23 marker r = none := by
  rw [eqAttempt] at h
  split at h
  · rename_i g2 r2 hfg
    split at h
    · simp at h
    · rename_i hg23
      exact Or.inr ⟨g2, r2, hfg, hg23⟩
  · rename_i hfg
    exact Or.inl hfg

/-- Facts recoverable from a successful `scanEq`: the consumed part is
non-empty and contains a `>`, and groups 2–3 genuinely match. -/
lemma scanEq_facts {marker : List Char → Bool} {l a hd s : List Char}
    (h : scanEq marker l = some (a, hd, s)) :
    a ≠ [] ∧ '>' ∈ a ∧ groups23 marker (hd ++ s) = some (hd, s) := by
  induction l generalizing a hd s with
  | nil => simp [scanEq] at h
  | cons c rest ih =>
    rw [scanEq] at h
    split at h
    · simp at h
    · split at h
      · split at h
        · rename_i g h2 s2 hat
          simp only [Option.some.injEq, Prod.mk.injEq] at h
          obtain ⟨h1, h2', h3⟩ := h
          subst h1 h2' h3
          obtain ⟨hfg, hg23⟩ := eqAttempt_some_elim hat
          obtain ⟨g0, hg0, _⟩ := findGt_struct hfg
          refine ⟨by simp, ?_, hg23⟩
          rw [hg0]
          simp
        · split at h
          · rename_i a2 h2 s2 hse
            simp only [Option.some.injEq, Prod.mk.injEq] at h
            obtain ⟨h1, h2', h3⟩ := h
            subst h1 h2' h3
            obtain ⟨hne, hmem, hg⟩ := ih hse
            exact ⟨by simp, by simp [hmem], hg⟩
          · simp at h
      · split at h
        · rename_i a2 h2 s2 hse
          simp only [Option.some.injEq, Prod.mk.injEq] at h
          obtain ⟨h1, h2', h3⟩ := h
          subst h1 h2' h3
          obtain ⟨hne, hmem, hg⟩ := ih hse
          exact ⟨by simp, by simp [hmem], hg⟩
        · simp at h

/-- Stability of `scanEq` under replacement of the group-2 payload by a
newline-free, `<`-free string. -/
lemma scanEq_stable {marker : List Char → Bool}
    (hm : ∀ c r, marker (c :: r) = true → c = '<') (hm0 : marker [] = false)
    {a hd s h' : List Char}
    (hsafeH : ∀ c ∈ h', c ≠ '\n' ∧ c ≠ '<')
    (h : scanEq marker (a ++ hd ++ s) = some (a, hd, s)) :
    scanEq marker (a ++ h' ++ s) = some (a, h', s) := by
  induction a generalizing h' with
  | nil =>
    exact absurd rfl (scanEq_facts h).1
  | cons c a2 ih =>
    obtain ⟨-, hgtmem, hg23⟩ := scanEq_facts h
    obtain ⟨hnlhs, hfmhs⟩ := groups23_some_elim hg23
    have hmk : marker s = true := findMarker_marker hfmhs
    have hsne : s ≠ [] := by
      intro hcontra
      rw [hcontra] at hmk
      rw [hm0] at hmk
      exact Bool.false_ne_true hmk
    have hnl_s : '\n' ∉ s := fun hc => hnlhs (by simp [hc])
    have hnl_h' : '\n' ∉ h' := fun hc => (hsafeH '\n' hc).1 rfl
    have hlt_h' : ∀ c ∈ h', c ≠ '<' := fun c hc => (hsafeH c hc).2
    have hnl_h's : '\n' ∉ h' ++ s := by
      simp only [List.mem_append, not_or]
      exact ⟨hnl_h', hnl_s⟩
    have hg23' : groups23 marker (h' ++ s) = some (h', s) :=
      groups23_recon hnl_h's (findMarker_recon hm hlt_h' hmk hsne)
    simp only [List.cons_append, List.append_assoc] at h ⊢
    by_cases hcnl : (c == '\n') = true
    · rw [scanEq, if_pos hcnl] at h
      simp at h
    · by_cases hceq : (c == '=') = true
      · rcases hat : eqAttempt marker (a2 ++ (hd ++ s)) with _ | ⟨g, h2, s2⟩
        · -- the attempt at this `=` failed on the original line
          rw [scanEq, if_neg hcnl, if_pos hceq, hat] at h
          rcases hse : scanEq marker (a2 ++ (hd ++ s)) with _ | ⟨a3, h3, s3⟩
          · rw [hse] at h
            simp at h
          · rw [hse] at h
            simp only [Option.some.injEq, Prod.mk.injEq] at h
            obtain ⟨h1, h2e, h3e⟩ := h
            have ha : a3 = a2 := by injection h1
            rw [ha, h2e, h3e] at hse
            have hse0 : scanEq marker (a2 ++ hd ++ s) = some (a2, hd, s) := by
              rw [List.append_assoc]
              exact hse
            have hrec := ih hsafeH hse0
            rw [List.append_assoc] at hrec
            have hgt_a2 : '>' ∈ a2 := by
              have := (scanEq_facts hse).2.1
              exact this
            have hat2 : eqAttempt marker (a2 ++ (h' ++ s)) = none := by
              rcases eqAttempt_none_elim hat with hnone | ⟨g1, r1, hfg1, hg231⟩
              · exact absurd (by simp [hgt_a2] : '>' ∈ a2 ++ (hd ++ s))
                  (findGt_none hnone)
              · obtain ⟨ga, ra, hfga⟩ := findGt_mem hgt_a2
                have hfga1 : findGt (a2 ++ (hd ++ s)) = some (ga, ra ++ (hd ++ s)) :=
                  findGt_append hfga
                rw [hfga1] at hfg1
                simp only [Option.some.injEq, Prod.mk.injEq] at hfg1
                obtain ⟨hg1, hr1⟩ := hfg1
                rw [← hr1] at hg231
                have hnl_ra : '\n' ∈ ra := by
                  rcases groups23_none_elim hg231 with hmemnl | hfmnone
                  · simp only [List.mem_append] at hmemnl
                    rcases hmemnl with hra | hhs
                    · exact hra
                    · exact absurd hhs (by simpa using hnlhs)
                  · exfalso
                    have hne2 : findMarker marker ((ra ++ hd) ++ s) ≠ none :=
                      findMarker_ne_none hmk hsne
                    rw [List.append_assoc] at hne2
                    exact hne2 hfmnone
                have hfga2 : findGt (a2 ++ (h' ++ s)) = some (ga, ra ++ (h' ++ s)) :=
                  findGt_append hfga
                rw [eqAttempt]
                simp [hfga2,
                  groups23_none_of_newline (by simp [hnl_ra] : '\n' ∈ ra ++ (h' ++ s))]
            rw [scanEq, if_neg hcnl, if_pos hceq]
            simp [hat2, hrec]
        · -- the attempt at this `=` succeeded on the original line
          rw [scanEq, if_neg hcnl, if_pos hceq, hat] at h
          simp only [Option.some.injEq, Prod.mk.injEq] at h
          obtain ⟨h1, h2e, h3e⟩ := h
          have hg : g = a2 := by injection h1
          rw [hg, h2e, h3e] at hat
          obtain ⟨hfg, hg23o⟩ := eqAttempt_some_elim hat
          obtain ⟨g0, hg0, hg0mem⟩ := findGt_struct hfg
          have hfg2 : findGt (a2 ++ (h' ++ s)) = some (a2, h' ++ s) := by
            rw [hg0, List.append_assoc]
            have hfr := findGt_recon hg0mem (h' ++ s)
            simpa using hfr
          have hat2 : eqAttempt marker (a2 ++ (h' ++ s)) = some (a2, h', s) := by
            rw [eqAttempt]
            simp [hfg2, hg23']
          rw [scanEq, if_neg hcnl, if_pos hceq]
          simp [hat2]
      · rw [scanEq, if_neg hcnl, if_neg hceq] at h
        rcases hse : scanEq marker (a2 ++ (hd ++ s)) with _ | ⟨a3, h3, s3⟩
        · rw [hse] at h
          simp at h
        · rw [hse] at h
          simp only [Option.some.injEq, Prod.mk.injEq] at h
          obtain ⟨h1, h2e, h3e⟩ := h
          have ha : a3 = a2 := by injection h1
          rw [ha, h2e, h3e] at hse
          have hse0 : scanEq marker (a2 ++ hd ++ s) = some (a2, hd, s) := by
            rw [List.append_assoc]
            exact hse
          have hrec := ih hsafeH hse0
          rw [List.append_assoc] at hrec
          rw [scanEq, if_neg hcnl, if_neg hceq]
          simp [hrec]

lemma takeWhile_append_left {q : Char → Bool} {u : List Char}
    (hu : ∀ c ∈ u, q c = true) {c : Char} (hc : q c = false) (z : List Char) :
    (u ++ c :: z).takeWhile q = u ∧ (u ++ c :: z).dropWhile q = c :: z := by
  induction u with
  | nil =>
    simp [List.takeWhile_cons, List.dropWhile_cons, hc]
  | cons u0 u2 ih =>
    have hu0 : q u0 = true := hu u0 (by simp)
    have hu2 : ∀ c ∈ u2, q c = true := fun d hd => hu d (by simp [hd])
    obtain ⟨ih1, ih2⟩ := ih hu2
    constructor
    · rw [List.cons_append, List.takeWhile_cons, hu0]
      simp [ih1]
    · rw [List.cons_append, List.dropWhile_cons, hu0]
      simpa using ih2

lemma head?_dropWhile_not {p : Char → Bool} (l : List Char) :
    ∀ c, (l.dropWhile p).head? = some c → p c = false := by
  induction l with
  | nil => intro c h; simp at h
  | cons a l ih =>
    intro c h
    rw [List.dropWhile_cons] at h
    by_cases hp : p a
    · simp only [hp, if_true] at h
      exact ih c h
    · simp only [hp, if_false] at h
      have hac : a = c := by
        simpa using h
      subst hac
      simpa using hp

/-- Stability of heading matching: replacing the matched heading text by
any newline-free, `<`-free string leaves the prefix and suffix groups
unchanged. -/
lemma matchHeadingG_stable {marker : List Char → Bool}
    (hm : ∀ c r, marker (c :: r) = true → c = '<') (hm0 : marker [] = false)
    {p hd s h' : List Char}
    (hsafeH : ∀ c ∈ h', c ≠ '\n' ∧ c ≠ '<')
    (h : matchHeadingG marker (p ++ hd ++ s) = some (p, hd, s)) :
    matchHeadingG marker (p ++ h' ++ s) = some (p, h', s) := by
  rw [matchHeadingG] at h
  split at h
  · rename_i d r2 hdw
    split at h
    · rename_i hcond
      split at h
      · rename_i a h2 s2 hse
        simp only [Option.some.injEq, Prod.mk.injEq] at h
        obtain ⟨hp, h2e, h3e⟩ := h
        rw [h2e, h3e] at hse
        set ws := (p ++ hd ++ s).takeWhile isHSpace with hwsdef
        set sp := r2.takeWhile isHSpace with hspdef
        have hws : ∀ c ∈ ws, isHSpace c = true :=
          fun c hc => List.mem_takeWhile_imp hc
        have hsp : ∀ c ∈ sp, isHSpace c = true :=
          fun c hc => List.mem_takeWhile_imp hc
        have hfull : p ++ hd ++ s = ws ++ ('<' :: 'h' :: d :: r2) := by
          rw [hwsdef, ← hdw, List.takeWhile_append_dropWhile]
        have hr2eq : sp ++ (a ++ (hd ++ s)) = r2 := by
          rw [← hp] at hfull
          simp only [List.append_assoc, List.cons_append] at hfull
          have h2' := List.append_cancel_left hfull
          simp only [List.cons.injEq, true_and] at h2'
          exact h2'
        have hrd : r2.dropWhile isHSpace = a ++ (hd ++ s) := by
          have h3' : sp ++ (a ++ (hd ++ s)) = sp ++ r2.dropWhile isHSpace := by
            rw [hr2eq, hspdef, List.takeWhile_append_dropWhile]
          exact (List.append_cancel_left h3').symm
        have hse1 : scanEq marker (a ++ (hd ++ s)) = some (a, hd, s) := by
          rw [← hrd]
          exact hse
        have hane : a ≠ [] := (scanEq_facts hse1).1
        have hse2 : scanEq marker (a ++ (h' ++ s)) = some (a, h', s) := by
          have hst := scanEq_stable hm hm0 hsafeH
            (by rw [← List.append_assoc] at hse1; exact hse1)
          rw [← List.append_assoc]
          exact hst
        obtain ⟨c2, r3, hac⟩ := List.exists_cons_of_ne_nil hane
        have hq2 : isHSpace c2 = false := by
          have hdw2 : (r2.dropWhile isHSpace).head? = some c2 := by
            rw [hrd, hac]
            simp
          exact head?_dropWhile_not r2 c2 hdw2
        -- the modified input decomposes the same way
        have hnew : p ++ h' ++ s = ws ++ '<' :: ('h' :: d :: (sp ++ (a ++ (h' ++ s)))) := by
          rw [← hp]
          simp [List.append_assoc]
        have hxlt : isHSpace '<' = false := by decide
        obtain ⟨htwl, hdwl⟩ := takeWhile_append_left hws hxlt
          ('h' :: d :: (sp ++ (a ++ (h' ++ s))))
        have he1 : sp ++ (a ++ (h' ++ s)) = sp ++ c2 :: (r3 ++ (h' ++ s)) := by
          rw [hac]
          simp
        obtain ⟨htwr, hdwr⟩ := takeWhile_append_left hsp hq2 (r3 ++ (h' ++ s))
        have htwr2 : (sp ++ (a ++ (h' ++ s))).takeWhile isHSpace = sp := by
          rw [he1]
          exact htwr
        have hdwr2 : (sp ++ (a ++ (h' ++ s))).dropWhile isHSpace = a ++ (h' ++ s) := by
          rw [he1, hdwr, hac]
          simp
        rw [matchHeadingG, hnew, hdwl]
        simp only [htwr2, hdwr2, hse2, htwl]
        rw [if_pos hcond]
        rw [hp]
      · simp at h
    · simp at h
  · simp at h

/-! ## Structural lemmas about line splitting and joining -/

lemma splitlinesAux_cons_nb {c : Char} (hc : isLineBreak c = false)
    (l : List Char) (b : Bool) (acc : List Char) :
    splitlinesAux (c :: l) b acc = splitlinesAux l false (c :: acc) := by
  have hnl : (c == '\n') = false := by
    rcases hch : c == '\n' with _ | _
    · rfl
    · exfalso
      rw [show c = '\n' from by simpa using hch, isLineBreak] at hc
      simp at hc
  rw [splitlinesAux]
  simp [hnl, hc]

lemma splitlinesAux_newline (l : List Char) (acc : List Char) :
    splitlinesAux ('\n' :: l) false acc = acc.reverse :: splitlinesAux l false [] := by
  rw [splitlinesAux]
  simp [isLineBreak]

lemma splitlinesAux_breakFree_prefix {y : List Char} (hy : breakFree y) :
    ∀ l acc, splitlinesAux (y ++ l) false acc = splitlinesAux l false (y.reverse ++ acc) := by
  induction y with
  | nil => intro l acc; simp
  | cons c rest ih =>
    intro l acc
    have hc : isLineBreak c = false := hy c (by simp)
    have hrest : breakFree rest := fun d hd => hy d (by simp [hd])
    rw [List.cons_append, splitlinesAux_cons_nb hc, ih hrest]
    simp

/-- Rejoining break-free lines with `"\n"` and re-splitting returns the
lines, except that a trailing empty line is dropped. -/
lemma splitlines_joinNL (ys : List (List Char)) (hys : ∀ y ∈ ys, breakFree y) :
    splitlines (joinNL ys) =
      if ys.getLast? = some ([] : List Char) then ys.dropLast else ys := by
  induction ys with
  | nil => simp [splitlines, joinNL, splitlinesAux]
  | cons y ys ih =>
    have hy : breakFree y := hys y (by simp)
    have hys2 : ∀ z ∈ ys, breakFree z := fun z hz => hys z (by simp [hz])
    rcases ys with _ | ⟨y2, ys2⟩
    · rw [joinNL, splitlines]
      have h1 := splitlinesAux_breakFree_prefix hy [] []
      simp only [List.append_nil] at h1
      rw [h1, splitlinesAux]
      rcases hcase : y with _ | ⟨c, rest⟩
      · simp
      · simp [List.getLast?]
    · have h0 : joinNL (y :: y2 :: ys2) = y ++ '\n' :: joinNL (y2 :: ys2) := rfl
      rw [h0, splitlines]
      have h1 : splitlinesAux (y ++ '\n' :: joinNL (y2 :: ys2)) false [] =
          splitlinesAux ('\n' :: joinNL (y2 :: ys2)) false (y.reverse ++ []) :=
        splitlinesAux_breakFree_prefix hy _ _
      rw [h1, splitlinesAux_newline]
      simp only [List.append_nil, List.reverse_reverse]
      have h2 : splitlinesAux (joinNL (y2 :: ys2)) false [] =
          splitlines (joinNL (y2 :: ys2)) := rfl
      rw [h2, ih hys2]
      by_cases hlast : (y2 :: ys2).getLast? = some ([] : List Char)
      · simp [hlast, List.getLast?_cons_cons]
      · simp [hlast, List.getLast?_cons_cons]

/-- Every line produced by `splitlines` is break-free. -/
lemma splitlines_breakFree (l : List Char) :
    ∀ y ∈ splitlines l, breakFree y := by
  suffices h : ∀ (l : List Char) (b : Bool) (acc : List Char), breakFree acc.reverse →
      ∀ y ∈ splitlinesAux l b acc, breakFree y by
    intro y hy
    exact h l false [] (by intro c hc; simp at hc) y hy
  intro l
  induction l with
  | nil =>
    intro b acc hacc y hy
    rw [splitlinesAux] at hy
    by_cases he : acc.isEmpty
    · simp [he] at hy
    · simp only [he, Bool.false_eq_true, if_false, List.mem_singleton] at hy
      subst hy
      exact hacc
  | cons c rest ih =>
    intro b acc hacc y hy
    rw [splitlinesAux] at hy
    by_cases hskip : (c == '\n' && b) = true
    · rw [if_pos hskip] at hy
      exact ih false acc hacc y hy
    · rw [if_neg (by simpa using hskip)] at hy
      by_cases hbr : isLineBreak c
      · simp only [hbr, if_true, List.mem_cons] at hy
        rcases hy with hy | hy
        · subst hy; exact hacc
        · exact ih (c == '\r') [] (by intro d hd; simp at hd) y hy
      · simp only [hbr, Bool.false_eq_true, if_false] at hy
        refine ih false (c :: acc) ?_ y hy
        intro d hd
        simp only [List.reverse_cons, List.mem_append, List.mem_reverse,
          List.mem_singleton] at hd
        rcases hd with hd | hd
        · exact hacc d (by simpa using hd)
        · subst hd
          simpa using hbr

/-! ## The fix-mode page transformation in pure form -/

lemma toTitlecase_title (tc : String → String) (v : String) :
    toTitlecaseFn "title" tc v = .ok (titleT tc v) := rfl

lemma fixPageLines_title (tc : String → String) :
    ∀ ls, fixPageLines "title" tc ls = .ok (ls.map (processLineT tc)) := by
  intro ls
  induction ls with
  | nil => rfl
  | cons l rest ih =>
    rcases hm : matchHeadingG markerP l with _ | ⟨p, h, s⟩ <;>
      simp [fixPageLines, hm, processLineT, ih, toTitlecase_title, titleT, Except.map]

lemma fixPageContent_title (tc : String → String) (html : String) :
    fixPageContent "title" tc html =
      .ok (String.mk (joinNL ((splitlines html.toList).map (processLineT tc)))) := by
  rw [fixPageContent, fixPageLines_title]
  rfl

/-- Each processed line is break-free, provided the title-casing
collaborator's outputs are. -/
lemma processLineT_breakFree (tc : String → String)
    (htame : ∀ v, breakFree (titleT tc v).toList)
    {l : List Char} (hl : breakFree l) : breakFree (processLineT tc l) := by
  rw [processLineT]
  rcases hm : matchHeadingG markerP l with _ | ⟨p, h, s⟩
  · exact hl
  · have hsplit := matchHeadingG_split hm
    intro c hc
    simp only [List.mem_append] at hc
    rcases hc with (hc | hc) | hc
    · exact hl c (by rw [hsplit]; simp [hc])
    · exact htame (String.mk h) c hc
    · exact hl c (by rw [hsplit]; simp [hc])

lemma markerP_head : ∀ c r, markerP (c :: r) = true → c = '<' := by
  intro c r h
  rw [markerP] at h
  simpa using h

lemma markerP_nil : markerP [] = false := rfl

/-- Per-line idempotence of the fix-mode action, given an idempotent and
tame (newline-free, `<`-free) composed heading transform. -/
lemma processLineT_idem (tc : String → String)
    (hIdem : ∀ v, titleT tc (titleT tc v) = titleT tc v)
    (hsafe : ∀ v c, c ∈ (titleT tc v).toList → isLineBreak c = false ∧ c ≠ '<')
    (l : List Char) : processLineT tc (processLineT tc l) = processLineT tc l := by
  rcases hm : matchHeadingG markerP l with _ | ⟨p, hd, sf⟩
  · simp [processLineT, hm]
  · have hsplit := matchHeadingG_split hm
    rw [hsplit] at hm
    have hsafeH : ∀ c ∈ (titleT tc (String.mk hd)).toList, c ≠ '\n' ∧ c ≠ '<' := by
      intro c hc
      obtain ⟨hbr, hlt⟩ := hsafe (String.mk hd) c hc
      refine ⟨?_, hlt⟩
      intro hcontra
      rw [hcontra] at hbr
      simp [isLineBreak] at hbr
    have hst := matchHeadingG_stable markerP_head markerP_nil hsafeH hm
    have h1 : processLineT tc l = p ++ (titleT tc (String.mk hd)).toList ++ sf := by
      rw [processLineT]
      rw [hsplit, hm]
    rw [h1, processLineT, hst]
    have heta : String.mk (titleT tc (String.mk hd)).toList = titleT tc (String.mk hd) := rfl
    simp [heta, hIdem]

/-! ## Claim theorems: the match resolver -/

/-- C1.  Superset/subset asymmetry of the match resolver: with canonical
`` `echo` `` registered, the bare token `echo` (affixes a subset of the
canonical's) yields no override, the exact token `` `echo` `` yields
`` `echo` ``, and the richer token ``(`echo`)`` yields ``(`echo`)``, the
canonical word wrapped in the observed punctuation. -/
theorem match_resolver_superset_subset_asymmetry :
    toIgnoredTermsMapping ["\x60echo\x60"] =
      some [("echo", ⟨"\x60", "echo", "\x60"⟩)] ∧
    isTermIgnored [("echo", ⟨"\x60", "echo", "\x60"⟩)] "echo" = some none ∧
    isTermIgnored [("echo", ⟨"\x60", "echo", "\x60"⟩)] "\x60echo\x60" =
      some (some "\x60echo\x60") ∧
    isTermIgnored [("echo", ⟨"\x60", "echo", "\x60"⟩)] "(\x60echo\x60)" =
      some (some "(\x60echo\x60)") := by
  refine ⟨by decide, by decide, by decide, by decide⟩

/-- C2.  Evaluation of the code at the failing input for ladder step (d):
with canonical `(FAQ)` registered, the token `(faq)` has a word differing
from the canonical word only in case and affixes identical to the
canonical's, yet `is_term_ignored` returns `None` instead of the
representation `(FAQ)`.  The casefold-equality test
`casefold_lookup_term == casefold_canonical_term` uses `Term.__eq__`,
whose last conjunct compares the suffix against the *prefix*, so it fails
for asymmetric affixes and control falls through to the casefold-superset
branch, which returns `None`. -/
theorem casefold_exact_affix_match_returns_none :
    toIgnoredTermsMapping ["(FAQ)"] = some [("faq", ⟨"(", "FAQ", ")"⟩)] ∧
    pyCasefold "faq" = pyCasefold "FAQ" ∧ ("faq" : String) ≠ "FAQ" ∧
    isTermIgnored [("faq", ⟨"(", "FAQ", ")"⟩)] "(faq)" = some none := by
  refine ⟨by decide, by decide, by decide, by decide⟩

/-- C3.  Evaluation of the code at the failing input for structural
equality: `Term.__eq__` as written (`other._suffix == self._prefix` in
the last conjunct) is not even reflexive — a term with prefix `(` and
suffix `)` does not equal itself — contradicting the specified full
structural equality (identical prefix, word and suffix), which would make
it an equivalence relation. -/
theorem term_eq_not_reflexive :
    Term.termEq ⟨"(", "x", ")"⟩ ⟨"(", "x", ")"⟩ = false ∧
    (⟨"(", "x", ")"⟩ : Term).pre = (⟨"(", "x", ")"⟩ : Term).pre ∧
    (⟨"(", "x", ")"⟩ : Term).word = (⟨"(", "x", ")"⟩ : Term).word ∧
    (⟨"(", "x", ")"⟩ : Term).suf = (⟨"(", "x", ")"⟩ : Term).suf := by
  refine ⟨by decide, rfl, rfl, rfl⟩

/-! ## Claim C4: the punctuation split -/

/-- C4 counterexample.  `Term` parsing does *not* succeed on every input:
`PUNCTUATION_CAPTURE_RE` is built from `.` (which does not match a
newline) and a newline-free character class, so `fullmatch` fails on any
string containing `'\n'` and `_split_punctuation` raises `RuntimeError`
(the internal failure branch is reachable). -/
theorem split_punctuation_fails_on_newline :
    Term.fromString? "a\nb" = none ∧ splitPunct "\n".toList = none := by
  refine ⟨by decide, by decide⟩

/-- C4 amended.  For every input string that contains no newline, the
punctuation split succeeds and yields a triple whose concatenation is the
original string, whose prefix and suffix consist only of punctuation-set
characters, and whose word does not start or end with a punctuation-set
character. -/
theorem split_punctuation_total_newline_free (s : String)
    (hnl : '\n' ∉ s.toList) :
    ∃ p w t, splitPunct s.toList = some (p, w, t) ∧
      p ++ w ++ t = s.toList ∧
      (∀ c ∈ p, isPunct c = true) ∧
      (∀ c ∈ t, isPunct c = true) ∧
      (∀ c, w.head? = some c → isPunct c = false) ∧
      (∀ c, w.getLast? = some c → isPunct c = false) ∧
      Term.fromString? s = some ⟨String.mk p, String.mk w, String.mk t⟩ := by
  have hc : s.toList.contains '\n' = false := by
    simpa using hnl
  set l := s.toList with hl
  set p := l.takeWhile isPunct with hp
  set r := l.dropWhile isPunct with hr
  set t := (r.reverse.takeWhile isPunct).reverse with ht
  set w := (r.reverse.dropWhile isPunct).reverse with hw
  have hsplit : splitPunct l = some (p, w, t) := by
    unfold splitPunct
    rw [hc]
    simp
  have hwt : w ++ t = r := by
    rw [hw, ht, ← List.reverse_append, List.takeWhile_append_dropWhile,
      List.reverse_reverse]
  refine ⟨p, w, t, hsplit, ?_, ?_, ?_, ?_, ?_, ?_⟩
  · rw [List.append_assoc, hwt, hp, hr, List.takeWhile_append_dropWhile]
  · intro c hcp
    exact List.mem_takeWhile_imp hcp
  · intro c hct
    rw [ht, List.mem_reverse] at hct
    exact List.mem_takeWhile_imp hct
  · intro c hch
    have hrh : r.head? = some c := by
      rw [← hwt]
      cases hwd : w with
      | nil => rw [hwd] at hch; simp at hch
      | cons a u =>
        rw [hwd] at hch
        simp only [List.head?_cons, Option.some.injEq] at hch
        simp [hwd, hch]
    exact head?_dropWhile_not l c (by rwa [← hr])
  · intro c hcl
    have : w.reverse.head? = some c := by
      rwa [List.head?_reverse]
    rw [hw, List.reverse_reverse] at this
    exact head?_dropWhile_not r.reverse c this
  · rw [Term.fromString?, ← hl, hsplit]
    rfl

/-! ## Claim theorems: configuration errors and stripping -/

/-- C7.  Unrecognized configuration values are configuration errors: for
any mode other than `warn` and `fix`, both `on_nav` (when a nav is
present) and `on_page_content` fail with a `ConfigurationError` before
processing anything; for any capitalization type other than `title` and
`first_letter`, `_to_titlecase` fails with a `ConfigurationError`. -/
theorem unrecognized_config_values_error
    (mode capType : String) (tc : String → String)
    (hw : mode ≠ "warn") (hf : mode ≠ "fix")
    (ht : capType ≠ "title") (hfl : capType ≠ "first_letter") :
    (∀ nav startLine cfgPath capType2 tc2,
      onNav mode capType2 tc2 (some ()) nav startLine cfgPath =
        .error ("Unexpected mode: " ++ mode)) ∧
    (∀ html filePath capType2 tc2,
      onPageContent mode capType2 tc2 html filePath =
        .error ("Unexpected mode: " ++ mode)) ∧
    (∀ v, toTitlecaseFn capType tc v =
      .error ("Unexpected capitalization_type: " ++ capType ++ ".")) := by
  have hwb : (mode == "warn") = false := by
    simpa using hw
  have hfb : (mode == "fix") = false := by
    simpa using hf
  have htb : (capType == "title") = false := by
    simpa using ht
  have hflb : (capType == "first_letter") = false := by
    simpa using hfl
  refine ⟨?_, ?_, ?_⟩
  · intro nav startLine cfgPath capType2 tc2
    simp [onNav, hwb, hfb]
  · intro html filePath capType2 tc2
    simp [onPageContent, hwb, hfb]
  · intro v
    simp [toTitlecaseFn, htb, hflb]

/-- Witness for C7 at the concrete unrecognized values `"bogus"`. -/
theorem unrecognized_config_values_error_witness :
    onNav "bogus" "title" id (some ()) [] 0 "mkdocs.yml" =
      .error "Unexpected mode: bogus" ∧
    onPageContent "bogus" "title" id "x" "f.md" =
      .error "Unexpected mode: bogus" ∧
    toTitlecaseFn "bogus" id "x" =
      .error "Unexpected capitalization_type: bogus." := by
  obtain ⟨h1, h2, h3⟩ :=
    unrecognized_config_values_error "bogus" "bogus" id
      (by decide) (by decide) (by decide) (by decide)
  exact ⟨h1 [] 0 "mkdocs.yml" "title" id, h2 "x" "f.md" "title" id, h3 "x"⟩

/-- C8.  Heading comparison strips surrounding whitespace: the proposed
form of a heading is `strip(titlecase(strip(heading)))`, so a heading
whose stripped form is already correctly cased but which carries extra
surrounding whitespace still differs from its proposed form — warn mode
reports a mismatch naming the original and the stripped proposal, and
fix mode emits the stripped form. -/
theorem whitespace_only_mismatch_reported
    (tc : String → String) (h : String)
    (lineNumber : Option Nat) (filePath : Option String)
    (hcased : pyStrip (tc (pyStrip h)) = pyStrip h)
    (hws : h ≠ pyStrip h) :
    toTitlecaseFn "title" tc h = .ok (pyStrip h) ∧
    handleHeading "title" tc (some h) lineNumber filePath =
      .ok (some (formatWarning h (pyStrip h) lineNumber filePath)) := by
  have hfix : toTitlecaseFn "title" tc h = .ok (pyStrip h) := by
    simp [toTitlecaseFn, hcased]
  refine ⟨hfix, ?_⟩
  have hne : (h == pyStrip h) = false := by
    simpa using hws
  simp [handleHeading, hfix, hne]

/-- Witness for C8 at the concrete heading `" a"` with the identity
title-casing collaborator. -/
theorem whitespace_only_mismatch_reported_witness :
    pyStrip (id (pyStrip " a")) = pyStrip " a" ∧ (" a" : String) ≠ pyStrip " a" ∧
    (toTitlecaseFn "title" id " a" = .ok (pyStrip " a") ∧
     handleHeading "title" id (some " a") none (some "d.md") =
       .ok (some (formatWarning " a" (pyStrip " a") none (some "d.md")))) :=
  ⟨by decide, by decide,
   whitespace_only_mismatch_reported id " a" none (some "d.md") (by decide) (by decide)⟩

/-! ## Claim theorems: heading extraction -/

/-- C5.  Heading-extraction literal scenarios: the plain `h1` line splits
into the claimed prefix, text and suffix; the `code`-span line yields the
text `` `cat` `` with the code markers replaced by backticks; and `<ol>`
is not a heading. -/
theorem parse_html_heading_scenarios :
    parseHtmlHeading
        "<h1 id=\"id\">heading 1<a class=\"headerlink\" href=\"#heading-1\">&para;</a></h1>" =
      some ("<h1 id=\"id\">", "heading 1",
        "<a class=\"headerlink\" href=\"#heading-1\">&para;</a></h1>") ∧
    parseHtmlHeading
        "<h1 id=\"id\"><code>cat</code><a class=\"headerlink\" href=\"#heading-1\">&para;</a></h1>" =
      some ("<h1 id=\"id\">", "\x60cat\x60",
        "<a class=\"headerlink\" href=\"#heading-1\">&para;</a></h1>") ∧
    parseHtmlHeading "<ol>" = none := by
  refine ⟨by decide, by decide, by decide⟩

/-- C9.  Sequential entity decoding cascades: in a heading whose inner
text contains the literal substring `&amp;lt;`, the `&amp;` → `&`
replacement runs first and produces `&lt;`, which the later `&lt;` → `<`
replacement then decodes, so the extracted text contains `<` rather than
`&lt;`. -/
theorem entity_decoding_cascades :
    parseHtmlHeading "<h1 id=\"x\">a&amp;lt;b<a y=\"z\">p</a></h1>" =
      some ("<h1 id=\"x\">", "a<b", "<a y=\"z\">p</a></h1>") ∧
    decodeHeading "a&amp;lt;b".toList = "a<b".toList := by
  refine ⟨by decide, by decide⟩

/-! ## Claim theorems: fix-mode frame effects -/

/-- C10.  Fix-mode page-content output is exactly the input's lines
rejoined with a single `"\n"` separator (assuming the title-casing
collaborator returns line-break-free strings): non-heading lines are
preserved verbatim as line contents, and the whole document can come back
unchanged only when it already equals its lines rejoined with `"\n"` —
i.e. when its separators are `"\n"` with no trailing line terminator. -/
theorem fix_output_is_lines_rejoined (tc : String → String)
    (htame : ∀ v, breakFree (titleT tc v).toList) (doc : String) :
    fixPageContent "title" tc doc =
      .ok (String.mk (joinNL ((splitlines doc.toList).map (processLineT tc)))) ∧
    (∀ l, matchHeadingG markerP l = none → processLineT tc l = l) ∧
    (fixPageContent "title" tc doc = .ok doc →
      doc = String.mk (joinNL (splitlines doc.toList))) := by
  refine ⟨fixPageContent_title tc doc, ?_, ?_⟩
  · intro l hm
    simp [processLineT, hm]
  · intro heq
    rw [fixPageContent_title] at heq
    have h2 : String.mk (joinNL ((splitlines doc.toList).map (processLineT tc))) = doc :=
      Except.ok.inj heq
    set ls := splitlines doc.toList with hls
    set ys := ls.map (processLineT tc) with hys
    have hdoc : doc.toList = joinNL ys := congrArg String.toList h2.symm
    have hbf : ∀ y ∈ ys, breakFree y := by
      intro y hy
      rw [hys] at hy
      simp only [List.mem_map] at hy
      obtain ⟨l, hl, hyl⟩ := hy
      rw [← hyl]
      exact processLineT_breakFree tc htame (splitlines_breakFree doc.toList l hl)
    have hround := splitlines_joinNL ys hbf
    rw [← hdoc, ← hls] at hround
    by_cases hlast : ys.getLast? = some ([] : List Char)
    · exfalso
      rw [if_pos hlast] at hround
      have hlen : ls.length = ys.length := by
        rw [hys, List.length_map]
      have hne : ys ≠ [] := by
        intro hcontra
        rw [hcontra] at hlast
        simp at hlast
      have hpos : 0 < ys.length := List.length_pos.mpr hne
      have hlen2 : ls.length = ys.length - 1 := by
        rw [hround, List.length_dropLast]
      omega
    · rw [if_neg hlast] at hround
      have h3 : String.mk (joinNL ls) = String.mk doc.toList := by
        rw [hround, hdoc]
      show doc = String.mk (joinNL ls)
      rw [h3]
      rfl

/-- C6 counterexample.  Fix mode is not idempotent for every input
document, even with an idempotent title-casing collaborator (here the
identity function, which trivially satisfies
`titlecase(titlecase(s)) = titlecase(s)`): on the heading-free document
`"\n\n"` one application yields `"\n"` and a second yields `""`, because
the output is rebuilt by joining the split lines with `"\n"`, which drops
a trailing line terminator on each pass. -/
theorem fix_mode_not_idempotent_as_stated :
    fixPageContent "title" (fun s => s) "\n\n" = .ok "\n" ∧
    fixPageContent "title" (fun s => s) "\n" = .ok "" ∧
    ("" : String) ≠ "\n" := by
  refine ⟨?_, ?_, by decide⟩
  · exact (fixPageContent_title (fun s => s) "\n\n").trans
      (congrArg Except.ok (by decide))
  · exact (fixPageContent_title (fun s => s) "\n").trans
      (congrArg Except.ok (by decide))

/-- C6 amended.  Fix mode is idempotent on its own output under the
hypotheses that the composed per-heading transform
`strip ∘ titlecase ∘ strip` is idempotent and emits no line-break and no
`<` character, for every document whose processed line list does not end
in an empty line (equivalently, whose fix output does not lose a final
empty line to the `"\n"`-join): applying the fix transformation to its
own output returns that output unchanged. -/
theorem fix_mode_idempotent_on_output (tc : String → String)
    (hIdem : ∀ v, titleT tc (titleT tc v) = titleT tc v)
    (hsafe : ∀ v c, c ∈ (titleT tc v).toList → isLineBreak c = false ∧ c ≠ '<')
    (doc out : String)
    (hlast : ((splitlines doc.toList).map (processLineT tc)).getLast? ≠
      some ([] : List Char))
    (hout : fixPageContent "title" tc doc = .ok out) :
    fixPageContent "title" tc out = .ok out := by
  rw [fixPageContent_title] at hout
  have hout2 : String.mk (joinNL ((splitlines doc.toList).map (processLineT tc))) =
      out := Except.ok.inj hout
  set ls := splitlines doc.toList with hls
  set ys := ls.map (processLineT tc) with hys
  have htoList : out.toList = joinNL ys := congrArg String.toList hout2.symm
  have htame : ∀ v, breakFree (titleT tc v).toList :=
    fun v c hc => (hsafe v c hc).1
  have hbf : ∀ y ∈ ys, breakFree y := by
    intro y hy
    rw [hys] at hy
    simp only [List.mem_map] at hy
    obtain ⟨l, hl, hyl⟩ := hy
    rw [← hyl]
    exact processLineT_breakFree tc htame (splitlines_breakFree doc.toList l hl)
  have hsp : splitlines out.toList = ys := by
    rw [htoList, splitlines_joinNL ys hbf, if_neg hlast]
  rw [fixPageContent_title, hsp]
  have hmap : ys.map (processLineT tc) = ys := by
    rw [hys, List.map_map]
    exact List.map_congr_left (fun l _ => processLineT_idem tc hIdem hsafe l)
  rw [hmap, hout2]

/-- Witness for the amended C6 theorem: a constant collaborator on a
concrete heading document; the first fix already produces the fixed
point. -/
theorem fix_mode_idempotent_on_output_witness :
    fixPageContent "title" (fun _ => "x") "<h1 a=b>hi<a x>y</h1>" =
      .ok "<h1 a=b>x<a x>y</h1>" ∧
    fixPageContent "title" (fun _ => "x") "<h1 a=b>x<a x>y</h1>" =
      .ok "<h1 a=b>x<a x>y</h1>" := by
  have h1 : fixPageContent "title" (fun _ => "x") "<h1 a=b>hi<a x>y</h1>" =
      .ok "<h1 a=b>x<a x>y</h1>" :=
    (fixPageContent_title (fun _ => "x") "<h1 a=b>hi<a x>y</h1>").trans
      (congrArg Except.ok (by decide))
  refine ⟨h1, ?_⟩
  refine fix_mode_idempotent_on_output (fun _ => "x") ?_ ?_
    "<h1 a=b>hi<a x>y</h1>" "<h1 a=b>x<a x>y</h1>" ?_ h1
  · intro v
    rfl
  · intro v c hc
    have hc2 : c ∈ ("x" : String).toList := hc
    simp only [String.toList] at hc2
    have : c = 'x' := by
      simpa using hc2
    subst this
    exact ⟨by decide, by decide⟩
  · decide

/-- Witness for C10: with a line-break-free collaborator, a CRLF
separator is normalized to `"\n"` and a trailing newline is dropped. -/
theorem fix_output_is_lines_rejoined_witness :
    fixPageContent "title" (fun _ => "x") "a\r\nb" = .ok "a\nb" ∧
    fixPageContent "title" (fun _ => "x") "a\n" = .ok "a" ∧
    fixPageContent "title" (fun _ => "x") "a\nb" = .ok "a\nb" := by
  have htame : ∀ v, breakFree (titleT (fun _ => "x") v).toList := by
    intro v
    exact (by decide : ∀ c ∈ (pyStrip "x").toList, isLineBreak c = false)
  refine ⟨?_, ?_, ?_⟩
  · exact (fix_output_is_lines_rejoined (fun _ => "x") htame "a\r\nb").1.trans
      (congrArg Except.ok (by decide))
  · exact (fix_output_is_lines_rejoined (fun _ => "x") htame "a\n").1.trans
      (congrArg Except.ok (by decide))
  · exact (fix_output_is_lines_rejoined (fun _ => "x") htame "a\nb").1.trans
      (congrArg Except.ok (by decide))

/-- Witness for the amended C4 theorem at the concrete input `"(ab)."`. -/
theorem split_punctuation_total_newline_free_witness :
    '\n' ∉ ("(ab)." : String).toList ∧
    (∃ p w t, splitPunct ("(ab)." : String).toList = some (p, w, t) ∧
      p ++ w ++ t = ("(ab)." : String).toList ∧
      (∀ c ∈ p, isPunct c = true) ∧
      (∀ c ∈ t, isPunct c = true) ∧
      (∀ c, w.head? = some c → isPunct c = false) ∧
      (∀ c, w.getLast? = some c → isPunct c = false) ∧
      Term.fromString? "(ab)." = some ⟨String.mk p, String.mk w, String.mk t⟩) :=
  ⟨by decide, split_punctuation_total_newline_free "(ab)." (by decide)⟩

end TitleCasing
